import Mathlib

/-!
Verification of the greedy timetable scheduler in `src/main.py`.

The Python program works with durations as fractional hours (floats whose
values are all integer multiples of one minute).  The embedding below
measures every duration in integer minutes (`ℤ`): multiplying every
quantity of the source by 60 turns each of them into an integer and
preserves every comparison and every arithmetic step the program performs,
so the control flow of the embedding is exactly the control flow of the
source.  The correspondence with the fractional-hour reading is proved
where a claim states it (see the slot-duration theorem).

Random draws (`random.choice`) are modelled by an explicit stream of
natural numbers carried in the state; one draw pops the head of the
stream and indexes into the pool it chooses from.
-/

/-- Python's `str.split(sep)` for a one-character separator, on the
character list of a string.  `"a-".split("-") = ["a", ""]` etc. -/
def splitOnChar (c : Char) : List Char → List (List Char)
  | [] => [[]]
  | x :: xs =>
    if x = c then [] :: splitOnChar c xs
    else
      match splitOnChar c xs with
      | g :: gs => (x :: g) :: gs
      | [] => [[x]]

/-- Helper for `parseDigits`: accumulate decimal digits. -/
def parseDigitsAux : List Char → ℕ → Option ℕ
  | [], acc => some acc
  | c :: cs, acc =>
    if c.isDigit then parseDigitsAux cs (acc * 10 + (c.toNat - 48)) else none

/-- Python's `int(s)` for the non-negative decimal numerals that occur in
this program (`"08"`, `"15"`, quintuple components): `none` on the empty
string or any non-digit character, mirroring `int` raising `ValueError`. -/
def parseDigits : List Char → Option ℕ
  | [] => none
  | c :: cs => parseDigitsAux (c :: cs) 0

/-- Python's `str.strip()` on a character list. -/
def stripChars (l : List Char) : List Char :=
  ((l.dropWhile Char.isWhitespace).reverse.dropWhile Char.isWhitespace).reverse

/-- Python's `str.strip()`. -/
def pyStrip (s : String) : String :=
  ⟨stripChars s.toList⟩

/-- `calc_slot_duration` of `src/main.py`, in integer minutes: the label is
split on `"-"` into start and end, each split on `":"` into hour and
minute; the result is end minus start.  `none` models the `ValueError` the
Python code raises on a malformed label. -/
def calc_slot_duration (slot : String) : Option ℤ :=
  match splitOnChar '-' slot.toList with
  | [st, en] =>
    match splitOnChar ':' st, splitOnChar ':' en with
    | [h1s, m1s], [h2s, m2s] =>
      match parseDigits h1s, parseDigits m1s, parseDigits h2s, parseDigits m2s with
      | some h1, some m1, some h2, some m2 =>
        some (((60 * h2 + m2 : ℕ) : ℤ) - ((60 * h1 + m1 : ℕ) : ℤ))
      | _, _, _, _ => none
    | _, _ => none
  | _ => none

/-- The `time_durations` table: duration in minutes of a slot label.  The
Python program builds the table once for the catalog labels, all of which
parse (it would have crashed at load time otherwise), so the `getD`
default is never consulted on a run that reaches the scheduler. -/
def timeDur (s : String) : ℤ :=
  (calc_slot_duration s).getD 0

/-- Total duration in minutes of a block of slots. -/
def sumDur (l : List String) : ℤ :=
  (l.map timeDur).sum

/-- The fixed weekday list of `src/main.py`. -/
def week_days : List String :=
  ["Monday", "Tuesday", "Wednesday", "Thursday", "Friday"]

/-- `MAX_ATTEMPTS` of `src/main.py`. -/
def MAX_ATTEMPTS : ℕ := 10

/-- The tabular inputs of one run: the ordered slot catalog, the excluded
slot labels, and the two room pools read from `rooms.csv`. -/
structure Cfg where
  slot_keys : List String
  excluded_slots : List String
  classrooms : List String
  labs : List String

/-- The excluded slot labels hard-coded in `src/main.py`. -/
def excluded_slots_src : List String :=
  ["07:30-09:00", "13:15-14:00", "17:30-18:30"]

/-- The occupancy grid `tt_frame`: day and slot label to occupant tag,
`""` for a free cell. -/
def Grid : Type := String → String → String

/-- One assignment `tt_frame.at[day, slot] = v`. -/
def setCell (g : Grid) (day slot v : String) : Grid :=
  fun d s => if d = day ∧ s = slot then v else g d s

/-- The all-empty grid a run starts from. -/
def emptyGrid : Grid := fun _ _ => ""

/-- The mutable state of one `create_timetable` run: the grid, the per-day
faculty list `faculty_schedule`, the `room_allocations` table, and the
stream of pending random draws. -/
structure St where
  grid : Grid
  fac : String → List String
  rooms : List (String × String)
  rng : List ℕ

/-- The fresh state built at the top of `create_timetable`. -/
def init_state (rng : List ℕ) : St :=
  { grid := emptyGrid, fac := fun _ => [], rooms := [], rng := rng }

/-- The slot test of `find_free_blocks`:
`tt_frame.at[day, slot] == "" and slot not in excluded_slots`. -/
def isFreeSlot (cfg : Cfg) (g : Grid) (day s : String) : Bool :=
  decide (g day s = "" ∧ s ∉ cfg.excluded_slots)

/-- The loop of `find_free_blocks`: scan the labels, growing `temp` while
the test holds, closing the current non-empty group when it fails, and
flushing the trailing group at the end. -/
def groupRuns (free : String → Bool) : List String → List String → List (List String)
  | [], temp => if temp = [] then [] else [temp]
  | s :: rest, temp =>
    if free s then groupRuns free rest (temp ++ [s])
    else if temp = [] then groupRuns free rest []
    else temp :: groupRuns free rest []

/-- `find_free_blocks` of `src/main.py`. -/
def find_free_blocks (cfg : Cfg) (g : Grid) (day : String) : List (List String) :=
  groupRuns (isFreeSlot cfg g day) cfg.slot_keys []

/-- `random.choice(l)` driven by one drawn number `n`. -/
def choice (l : List String) (n : ℕ) : String :=
  l.getD (n % l.length) ""

/-- The block search of `place_session`: the first free group whose total
duration reaches the requested duration. -/
def firstFit (dur : ℤ) : List (List String) → Option (List String)
  | [] => none
  | g :: gs => if dur ≤ sumDur g then some g else firstFit dur gs

/-- The `slots_to_fill` loop of `place_session`: walk the group appending
slots until the accumulated duration reaches the requested duration. -/
def slotsToFill (dur : ℤ) : ℤ → List String → List String
  | _, [] => []
  | acc, s :: rest =>
    if dur ≤ acc + timeDur s then [s]
    else s :: slotsToFill dur (acc + timeDur s) rest

/-- The occupant tag written by `place_session` for session types
`"L"`, `"T"` and `"P"`. -/
def occupantTag (stype code room : String) (elect : Bool) : String :=
  if stype = "L" then (if elect then code else code ++ " (" ++ room ++ ")")
  else if stype = "T" then (if elect then code ++ "T" else code ++ "T (" ++ room ++ ")")
  else (if elect then code else code ++ " (Lab-" ++ room ++ ")")

/-- The write step of `place_session`'s fill loop: the `if/elif` chain
assigns a tag for session types `"L"`, `"T"` and `"P"` and writes nothing
for any other value. -/
def writeTag (g : Grid) (day s stype code room : String) (elect : Bool) : Grid :=
  if stype = "L" ∨ stype = "T" ∨ stype = "P" then
    setCell g day s (occupantTag stype code room elect)
  else g

/-- `faculty_schedule[day].append(faculty)`. -/
def pushFac (f : String → List String) (day fac : String) : String → List String :=
  fun d => if d = day then f d ++ [fac] else f d

/-- The room-resolution step of `place_session`: skipped for electives
(the `room` variable is then never read, so the dummy `""` is returned);
otherwise reuse the binding in `room_allocations` when present, else draw
from the pool selected by the session type, failing (`none`) when that
pool is empty, and bind the drawn room.  Returns the room together with
the `room_allocations` table and the random stream after the step. -/
def roomResolve (cfg : Cfg) (st : St) (course_code session_type : String)
    (is_elective : Bool) : Option (String × List (String × String) × List ℕ) :=
  if is_elective then some ("", st.rooms, st.rng)
  else
    match List.lookup course_code st.rooms with
    | some r => some (r, st.rooms, st.rng)
    | none =>
      if session_type = "P" then
        if cfg.labs = [] then none
        else
          let r := choice cfg.labs (st.rng.headD 0)
          some (r, (course_code, r) :: st.rooms, st.rng.tail)
      else
        if cfg.classrooms = [] then none
        else
          let r := choice cfg.classrooms (st.rng.headD 0)
          some (r, (course_code, r) :: st.rooms, st.rng.tail)

/-- `place_session` of `src/main.py`.  Returns the success flag and the
state after the call.  The call fails with the state untouched when no
free block is long enough or when room resolution fails. -/
def place_session (cfg : Cfg) (st : St) (day faculty course_code : String)
    (duration_hours : ℤ) (session_type : String) (is_elective : Bool) : Bool × St :=
  match firstFit duration_hours (find_free_blocks cfg st.grid day) with
  | none => (false, st)
  | some group =>
    let fill := slotsToFill duration_hours 0 group
    match roomResolve cfg st course_code session_type is_elective with
    | none => (false, st)
    | some (room, rooms2, rng2) =>
      (true,
        { grid := fill.foldl (fun g s => writeTag g day s session_type course_code room is_elective) st.grid,
          fac := if faculty = "" then st.fac else pushFac st.fac day faculty,
          rooms := rooms2,
          rng := rng2 })

/-- One pass of a course scheduler loop over the day list: skip a day when
the remaining duration is exhausted or the faculty already teaches that
day, otherwise attempt one placement sized by `alloc`; on success
decrement and break.  Returns the state and the remaining duration. -/
def dayPass (cfg : Cfg) (faculty code stype : String) (elect : Bool)
    (alloc : ℤ → ℤ) (remaining : ℤ) (st : St) : List String → St × ℤ
  | [] => (st, remaining)
  | day :: rest =>
    if remaining ≤ 0 ∨ (faculty ≠ "" ∧ faculty ∈ st.fac day) then
      dayPass cfg faculty code stype elect alloc remaining st rest
    else
      let res := place_session cfg st day faculty code (alloc remaining) stype elect
      if res.1 then (res.2, remaining - alloc remaining)
      else dayPass cfg faculty code stype elect alloc remaining res.2 rest

/-- The `while remaining > 0 and attempts < MAX_ATTEMPTS` loop of
`create_timetable`, for one course and one session type.  The fuel is the
number of passes still allowed; the third component of the result counts
the passes actually spent. -/
def course_sched (cfg : Cfg) (alloc : ℤ → ℤ) (stype : String) (elect : Bool)
    (faculty code : String) : ℕ → ℤ → St → St × ℤ × ℕ
  | 0, remaining, st => (st, remaining, 0)
  | fuel + 1, remaining, st =>
    if 0 < remaining then
      let p := dayPass cfg faculty code stype elect alloc remaining st week_days
      let r := course_sched cfg alloc stype elect faculty code fuel p.2 p.1
      (r.1, r.2.1, r.2.2 + 1)
    else (st, remaining, 0)

/-- `alloc_hours = min(1.5, lecture_hours_remaining)`, in minutes. -/
def lectureAlloc (r : ℤ) : ℤ := min 90 r

/-- Tutorial placements are always one hour. -/
def tutorialAlloc (_ : ℤ) : ℤ := 60

/-- `min(2, practical_hours_remaining) if practical_hours_remaining >= 2
else practical_hours_remaining`, in minutes. -/
def practicalAlloc (r : ℤ) : ℤ := if 120 ≤ r then min 120 r else r

/-- One course record, with the raw string fields the Python code reads
from `courses.csv` (`Elective` already passed through `str`). -/
structure Course where
  Course_Code : String
  Faculty : String
  LTPSC : String
  Elective : String

/-- Parsing of the `L-T-P-S-C` quintuple: split on `"-"`, strip each
component, parse each as an integer; `none` models the `try/except` that
skips a course whose quintuple does not yield exactly five integers. -/
def parseLTPSC (s : String) : Option (ℕ × ℕ × ℕ × ℕ × ℕ) :=
  match splitOnChar '-' s.toList with
  | [a, b, c, d, e] =>
    match parseDigits (stripChars a), parseDigits (stripChars b),
        parseDigits (stripChars c), parseDigits (stripChars d),
        parseDigits (stripChars e) with
    | some L, some T, some P, some S, some C => some (L, T, P, S, C)
    | _, _, _, _, _ => none
  | _ => none

/-- The per-course body of `create_timetable`'s main loop: lecture, then
tutorial, then practical hours, each through `course_sched` with
`MAX_ATTEMPTS` passes.  Hours are converted to minutes. -/
def sched_course (cfg : Cfg) (st : St) (course : Course) : St :=
  let faculty := pyStrip course.Faculty
  let code := pyStrip course.Course_Code
  let elect := code = "Elective"
  match parseLTPSC course.LTPSC with
  | none => st
  | some (L, T, P, _, _) =>
    let r1 := course_sched cfg lectureAlloc "L" elect faculty code MAX_ATTEMPTS ((L : ℤ) * 60) st
    let r2 := course_sched cfg tutorialAlloc "T" elect faculty code MAX_ATTEMPTS ((T : ℤ) * 60) r1.1
    let r3 := course_sched cfg practicalAlloc "P" elect faculty code MAX_ATTEMPTS ((P : ℤ) * 60) r2.1
    r3.1

/-- The defensive final loop of `create_timetable`: clear every excluded
slot that is a column of the frame, on every weekday. -/
def clearExcluded (cfg : Cfg) (g : Grid) : Grid :=
  week_days.foldl
    (fun g d =>
      cfg.excluded_slots.foldl
        (fun g s => if s ∈ cfg.slot_keys then setCell g d s "" else g) g)
    g

/-- A default course record for the `random.choice` indexing. -/
def defaultCourse : Course := ⟨"", "", "", ""⟩

/-- The course-list preparation of `create_timetable`: partition into
electives and mandatory courses; when any elective exists, draw one at
random (one draw from the stream) and append the synthetic `"Elective"`
pseudo-course carrying its faculty and quintuple.  Returns the course list
to schedule and the random stream after the step. -/
def pick_courses (course_list : List Course) (rng : List ℕ) : List Course × List ℕ :=
  let electives := course_list.filter (fun c => c.Elective = "1")
  let mandatory := course_list.filter (fun c => ¬(c.Elective = "1"))
  match electives with
  | [] => (mandatory, rng)
  | _ :: _ =>
    let chosen := electives.getD (rng.headD 0 % electives.length) defaultCourse
    (mandatory ++ [(⟨"Elective", chosen.Faculty, chosen.LTPSC, "0"⟩ : Course)],
      rng.tail)

/-- `create_timetable` of `src/main.py`: fresh state (grid, faculty sets
and room table all reset), elective selection, the course loop, and the
final clearing of excluded slots. -/
def create_timetable (cfg : Cfg) (course_list : List Course) (rng : List ℕ) : St :=
  let p := pick_courses course_list rng
  let stF := p.1.foldl (sched_course cfg) (init_state p.2)
  { stF with grid := clearExcluded cfg stF.grid }

/-- Inner part of the maximal-run decomposition: the list `l` consists of
the groups `gs` in order, each preceded by a non-empty run of slots
failing the `free` test, with only failing slots after the last group. -/
def InnerDecomp (free : String → Bool) : List String → List (List String) → Prop
  | l, [] => ∀ s ∈ l, free s = false
  | l, g :: gs =>
    ∃ pre rest, l = pre ++ (g ++ rest) ∧ pre ≠ [] ∧
      (∀ s ∈ pre, free s = false) ∧ InnerDecomp free rest gs

/-- Maximal-run decomposition of `l` into the groups `gs`: the groups
appear in order, separated by non-empty runs of slots failing the `free`
test (the run before the first group may be empty), and every slot outside
the groups fails the test.  Together with every group being non-empty and
all-free, this says `gs` is exactly the list of maximal free runs of `l`
in order. -/
def SepDecomp (free : String → Bool) (l : List String) : List (List String) → Prop
  | [] => ∀ s ∈ l, free s = false
  | g :: gs =>
    ∃ pre rest, l = pre ++ (g ++ rest) ∧
      (∀ s ∈ pre, free s = false) ∧ InnerDecomp free rest gs

/-- A slot label parses as `"HH:MM-HH:MM"` with the given hour and minute
components, through the exact splitting and integer parsing the code
performs. -/
def SlotParses (slot : String) (h1 m1 h2 m2 : ℕ) : Prop :=
  ∃ st en hs ms he me : List Char,
    splitOnChar '-' slot.toList = [st, en] ∧
    splitOnChar ':' st = [hs, ms] ∧ splitOnChar ':' en = [he, me] ∧
    parseDigits hs = some h1 ∧ parseDigits ms = some m1 ∧
    parseDigits he = some h2 ∧ parseDigits me = some m2

/-- The end-to-end scenario input of the spec: three one-hour slots, no
exclusions, one classroom, no labs. -/
def cfgC2 : Cfg :=
  ⟨["08:00-09:00", "09:00-10:00", "10:00-11:00"], [], ["R1"], []⟩

/-- The course of the end-to-end scenario. -/
def courseC2 : Course := ⟨"CODE", "X", "2-0-0-0-2", "0"⟩

/-- A configuration with disjoint one-room pools, for the room-per-pool
counterexample. -/
def cfgC1 : Cfg :=
  ⟨["08:00-09:00", "09:00-10:00", "10:00-11:00"], [], ["C1"], ["B1"]⟩

/-- A course with one lecture hour and one practical hour. -/
def courseC1 : Course := ⟨"CS", "F", "1-0-1-0-0", "0"⟩


/-- A small catalog with the middle slot excluded, for exercising the
free-block finder. -/
def cfgC4 : Cfg :=
  ⟨["08:00-09:00", "09:00-10:00", "10:00-11:00"], ["09:00-10:00"], [], []⟩

/-- A catalog containing an excluded slot, with one classroom. -/
def cfgW : Cfg :=
  ⟨["08:00-09:00", "13:15-14:00"], ["13:15-14:00"], ["R1"], []⟩

/-- A state whose grid is fully occupied. -/
def stW : St :=
  { grid := fun _ _ => "BUSY", fac := fun _ => [], rooms := [], rng := [] }

/-- A one-slot catalog with one classroom. -/
def cfgB : Cfg := ⟨["08:00-09:00"], [], ["R1"], []⟩

/-- A state in which course `"C"` is already bound to room `"R9"`. -/
def stB : St :=
  { grid := emptyGrid, fac := fun _ => [], rooms := [("C", "R9")], rng := [] }

/-- A state whose faculty sets already contain `"F"` on every day. -/
def stBusy : St :=
  { grid := emptyGrid, fac := fun _ => ["F"], rooms := [], rng := [] }

/-! ### Pointwise evaluation lemmas -/

lemma setCell_eval (g : Grid) (day slot v d s : String) :
    setCell g day slot v d s = if d = day ∧ s = slot then v else g d s := rfl

lemma pushFac_eval (f : String → List String) (day fac d : String) :
    pushFac f day fac d = if d = day then f d ++ [fac] else f d := rfl

lemma writeTag_eval (g : Grid) (day slot ty code room : String) (el : Bool) (d s : String) :
    writeTag g day slot ty code room el d s =
      if (ty = "L" ∨ ty = "T" ∨ ty = "P") ∧ d = day ∧ s = slot then
        occupantTag ty code room el
      else g d s := by
  unfold writeTag
  by_cases hty : ty = "L" ∨ ty = "T" ∨ ty = "P"
  · rw [if_pos hty, setCell_eval]
    by_cases hc : d = day ∧ s = slot
    · rw [if_pos hc, if_pos ⟨hty, hc⟩]
    · rw [if_neg hc, if_neg (fun h => hc h.2)]
  · rw [if_neg hty, if_neg (fun h => hty h.1)]

lemma foldl_writeTag_eval (day ty code room : String) (el : Bool) :
    ∀ (l : List String) (g : Grid) (d s : String),
      (l.foldl (fun g s => writeTag g day s ty code room el) g) d s =
        if (ty = "L" ∨ ty = "T" ∨ ty = "P") ∧ d = day ∧ s ∈ l then
          occupantTag ty code room el
        else g d s := by
  intro l
  induction l with
  | nil => intro g d s; simp
  | cons x xs ih =>
    intro g d s
    rw [List.foldl_cons, ih, writeTag_eval]
    by_cases hty : ty = "L" ∨ ty = "T" ∨ ty = "P" <;>
      by_cases hd : d = day <;> by_cases hx : s = x <;> by_cases hxs : s ∈ xs <;>
        simp [hty, hd, hx, hxs]

/-! ### Block-search lemmas -/

lemma slotsToFill_subset (dur : ℤ) :
    ∀ (l : List String) (acc : ℤ) (s : String), s ∈ slotsToFill dur acc l → s ∈ l := by
  intro l
  induction l with
  | nil => intro acc s h; simp [slotsToFill] at h
  | cons x xs ih =>
    intro acc s h
    rw [slotsToFill] at h
    by_cases hc : dur ≤ acc + timeDur x
    · rw [if_pos hc] at h
      simp only [List.mem_singleton] at h
      simp [h]
    · rw [if_neg hc] at h
      rcases List.mem_cons.mp h with h1 | h2
      · simp [h1]
      · exact List.mem_cons_of_mem _ (ih _ _ h2)

lemma firstFit_mem (dur : ℤ) :
    ∀ (gs : List (List String)) (g : List String), firstFit dur gs = some g → g ∈ gs := by
  intro gs
  induction gs with
  | nil => intro g h; simp [firstFit] at h
  | cons x xs ih =>
    intro g h
    rw [firstFit] at h
    by_cases hc : dur ≤ sumDur x
    · rw [if_pos hc] at h
      injection h with h
      simp [h]
    · rw [if_neg hc] at h
      exact List.mem_cons_of_mem _ (ih g h)

lemma choice_mem {l : List String} (h : l ≠ []) (n : ℕ) : choice l n ∈ l := by
  unfold choice
  have hlen : 0 < l.length := List.length_pos.mpr h
  have hlt : n % l.length < l.length := Nat.mod_lt _ hlen
  rw [List.getD_eq_getElem?_getD, List.getElem?_eq_getElem hlt]
  exact List.getElem_mem hlt

/-! ### Free-block scanner lemmas -/

lemma groupRuns_mem (free : String → Bool) :
    ∀ (l temp : List String), (∀ s ∈ temp, free s = true) →
      ∀ gr ∈ groupRuns free l temp, gr ≠ [] ∧ ∀ s ∈ gr, free s = true := by
  intro l
  induction l with
  | nil =>
    intro temp htemp gr hgr
    rw [groupRuns] at hgr
    by_cases h : temp = []
    · simp [h] at hgr
    · rw [if_neg h] at hgr
      simp only [List.mem_singleton] at hgr
      subst hgr
      exact ⟨h, htemp⟩
  | cons x xs ih =>
    intro temp htemp gr hgr
    rw [groupRuns] at hgr
    by_cases hf : free x = true
    · rw [if_pos hf] at hgr
      refine ih _ ?_ gr hgr
      intro s hs
      rcases List.mem_append.mp hs with h | h
      · exact htemp s h
      · simp only [List.mem_singleton] at h
        subst h
        exact hf
    · rw [if_neg hf] at hgr
      by_cases ht : temp = []
      · rw [if_pos ht] at hgr
        exact ih [] (by simp) gr hgr
      · rw [if_neg ht] at hgr
        rcases List.mem_cons.mp hgr with h | h
        · subst h
          exact ⟨ht, htemp⟩
        · exact ih [] (by simp) gr h

lemma groupRuns_join (free : String → Bool) :
    ∀ (l temp : List String), (groupRuns free l temp).flatten = temp ++ l.filter free := by
  intro l
  induction l with
  | nil =>
    intro temp
    rw [groupRuns]
    by_cases h : temp = [] <;> simp [h]
  | cons x xs ih =>
    intro temp
    rw [groupRuns]
    by_cases hf : free x = true
    · rw [if_pos hf, ih]
      simp [List.filter_cons, hf]
    · have hf' : free x = false := by
        cases h : free x
        · rfl
        · exact absurd h hf
      rw [if_neg hf]
      by_cases ht : temp = []
      · rw [if_pos ht, ih]
        simp [ht, List.filter_cons, hf']
      · rw [if_neg ht]
        simp [List.flatten_cons, ih, List.filter_cons, hf']

lemma groupRuns_contiguous (free : String → Bool) :
    ∀ (l temp gr : List String), gr ∈ groupRuns free l temp →
      ∃ pre post, temp ++ l = pre ++ (gr ++ post) := by
  intro l
  induction l with
  | nil =>
    intro temp gr h
    rw [groupRuns] at h
    by_cases ht : temp = []
    · simp [ht] at h
    · rw [if_neg ht] at h
      simp only [List.mem_singleton] at h
      subst h
      exact ⟨[], [], by simp⟩
  | cons x xs ih =>
    intro temp gr h
    rw [groupRuns] at h
    by_cases hf : free x = true
    · rw [if_pos hf] at h
      obtain ⟨pre, post, hpp⟩ := ih (temp ++ [x]) gr h
      refine ⟨pre, post, ?_⟩
      rw [← hpp]
      simp
    · rw [if_neg hf] at h
      by_cases ht : temp = []
      · rw [if_pos ht] at h
        obtain ⟨pre, post, hpp⟩ := ih [] gr h
        simp only [List.nil_append] at hpp
        exact ⟨temp ++ [x] ++ pre, post, by simp [hpp, ht]⟩
      · rw [if_neg ht] at h
        rcases List.mem_cons.mp h with h1 | h2
        · subst h1
          exact ⟨[], x :: xs, rfl⟩
        · obtain ⟨pre, post, hpp⟩ := ih [] gr h2
          simp only [List.nil_append] at hpp
          exact ⟨temp ++ [x] ++ pre, post, by simp [hpp]⟩

lemma groupRuns_congr (f f' : String → Bool) :
    ∀ (l temp : List String), (∀ s ∈ l, f s = f' s) →
      groupRuns f l temp = groupRuns f' l temp := by
  intro l
  induction l with
  | nil => intro temp _; rfl
  | cons x xs ih =>
    intro temp hagree
    rw [groupRuns, groupRuns, hagree x (by simp)]
    have hxs : ∀ s ∈ xs, f s = f' s := fun s hs => hagree s (by simp [hs])
    by_cases hf : f' x = true
    · rw [if_pos hf, if_pos hf, ih _ hxs]
    · rw [if_neg hf, if_neg hf]
      by_cases ht : temp = []
      · rw [if_pos ht, if_pos ht, ih _ hxs]
      · rw [if_neg ht, if_neg ht, ih _ hxs]

/-! ### Room-resolution lemmas -/

lemma roomResolve_elective (cfg : Cfg) (st : St) (code ty : String) :
    roomResolve cfg st code ty true = some ("", st.rooms, st.rng) := rfl

lemma roomResolve_bound (cfg : Cfg) (st : St) (code ty : String) (r : String)
    (h : List.lookup code st.rooms = some r) :
    roomResolve cfg st code ty false = some (r, st.rooms, st.rng) := by
  unfold roomResolve
  rw [if_neg Bool.false_ne_true, h]

lemma roomResolve_P_empty (cfg : Cfg) (st : St) (code ty : String)
    (hlk : List.lookup code st.rooms = none) (hty : ty = "P") (hlab : cfg.labs = []) :
    roomResolve cfg st code ty false = none := by
  unfold roomResolve
  rw [if_neg Bool.false_ne_true, hlk, if_pos hty, if_pos hlab]

lemma roomResolve_P_draw (cfg : Cfg) (st : St) (code ty : String)
    (hlk : List.lookup code st.rooms = none) (hty : ty = "P") (hlab : cfg.labs ≠ []) :
    roomResolve cfg st code ty false =
      some (choice cfg.labs (st.rng.headD 0),
        (code, choice cfg.labs (st.rng.headD 0)) :: st.rooms, st.rng.tail) := by
  unfold roomResolve
  rw [if_neg Bool.false_ne_true, hlk, if_pos hty, if_neg hlab]

lemma roomResolve_C_empty (cfg : Cfg) (st : St) (code ty : String)
    (hlk : List.lookup code st.rooms = none) (hty : ¬ ty = "P") (hcls : cfg.classrooms = []) :
    roomResolve cfg st code ty false = none := by
  unfold roomResolve
  rw [if_neg Bool.false_ne_true, hlk, if_neg hty, if_pos hcls]

lemma roomResolve_C_draw (cfg : Cfg) (st : St) (code ty : String)
    (hlk : List.lookup code st.rooms = none) (hty : ¬ ty = "P") (hcls : cfg.classrooms ≠ []) :
    roomResolve cfg st code ty false =
      some (choice cfg.classrooms (st.rng.headD 0),
        (code, choice cfg.classrooms (st.rng.headD 0)) :: st.rooms, st.rng.tail) := by
  unfold roomResolve
  rw [if_neg Bool.false_ne_true, hlk, if_neg hty, if_neg hcls]

lemma roomResolve_char (cfg : Cfg) (st : St) (code ty : String) (el : Bool)
    (room : String) (rooms2 : List (String × String)) (rng2 : List ℕ)
    (h : roomResolve cfg st code ty el = some (room, rooms2, rng2)) :
    (el = true ∧ room = "" ∧ rooms2 = st.rooms ∧ rng2 = st.rng) ∨
    (el = false ∧ List.lookup code st.rooms = some room ∧
      rooms2 = st.rooms ∧ rng2 = st.rng) ∨
    (el = false ∧ List.lookup code st.rooms = none ∧
      rooms2 = (code, room) :: st.rooms ∧ rng2 = st.rng.tail ∧
      ((ty = "P" ∧ room ∈ cfg.labs) ∨ (¬ ty = "P" ∧ room ∈ cfg.classrooms))) := by
  cases el with
  | true =>
    rw [roomResolve_elective] at h
    simp only [Option.some.injEq, Prod.mk.injEq] at h
    obtain ⟨h1, h2, h3⟩ := h
    exact Or.inl ⟨rfl, h1.symm, h2.symm, h3.symm⟩
  | false =>
    cases hlk : List.lookup code st.rooms with
    | some r =>
      rw [roomResolve_bound cfg st code ty r hlk] at h
      simp only [Option.some.injEq, Prod.mk.injEq] at h
      obtain ⟨h1, h2, h3⟩ := h
      subst h1
      exact Or.inr (Or.inl ⟨rfl, rfl, h2.symm, h3.symm⟩)
    | none =>
      by_cases hty : ty = "P"
      · by_cases hlab : cfg.labs = []
        · rw [roomResolve_P_empty cfg st code ty hlk hty hlab] at h
          cases h
        · rw [roomResolve_P_draw cfg st code ty hlk hty hlab] at h
          simp only [Option.some.injEq, Prod.mk.injEq] at h
          obtain ⟨h1, h2, h3⟩ := h
          subst h1
          exact Or.inr (Or.inr ⟨rfl, rfl, h2.symm, h3.symm,
            Or.inl ⟨hty, choice_mem hlab _⟩⟩)
      · by_cases hcls : cfg.classrooms = []
        · rw [roomResolve_C_empty cfg st code ty hlk hty hcls] at h
          cases h
        · rw [roomResolve_C_draw cfg st code ty hlk hty hcls] at h
          simp only [Option.some.injEq, Prod.mk.injEq] at h
          obtain ⟨h1, h2, h3⟩ := h
          subst h1
          exact Or.inr (Or.inr ⟨rfl, rfl, h2.symm, h3.symm,
            Or.inr ⟨hty, choice_mem hcls _⟩⟩)

/-! ### Shape of a `place_session` call -/

lemma place_session_spec (cfg : Cfg) (st : St) (day f code : String) (dur : ℤ)
    (ty : String) (el : Bool) :
    place_session cfg st day f code dur ty el = (false, st) ∨
    ∃ group room rooms2 rng2,
      firstFit dur (find_free_blocks cfg st.grid day) = some group ∧
      roomResolve cfg st code ty el = some (room, rooms2, rng2) ∧
      place_session cfg st day f code dur ty el =
        (true,
          { grid := (slotsToFill dur 0 group).foldl
              (fun g s => writeTag g day s ty code room el) st.grid,
            fac := if f = "" then st.fac else pushFac st.fac day f,
            rooms := rooms2, rng := rng2 }) := by
  unfold place_session
  cases hff : firstFit dur (find_free_blocks cfg st.grid day) with
  | none => exact Or.inl rfl
  | some group =>
    cases hrr : roomResolve cfg st code ty el with
    | none => exact Or.inl rfl
    | some trip =>
      obtain ⟨room, rooms2, rng2⟩ := trip
      exact Or.inr ⟨group, room, rooms2, rng2, rfl, rfl, rfl⟩

lemma place_session_fail (cfg : Cfg) (st : St) (day f code : String) (dur : ℤ)
    (ty : String) (el : Bool)
    (h : (place_session cfg st day f code dur ty el).1 = false) :
    (place_session cfg st day f code dur ty el).2 = st := by
  rcases place_session_spec cfg st day f code dur ty el with h1 | ⟨g, r, r2, n2, _, _, heq⟩
  · rw [h1]
  · rw [heq] at h
    exact absurd h (by simp)

lemma place_session_grid_changed (cfg : Cfg) (st : St) (day f code : String) (dur : ℤ)
    (ty : String) (el : Bool) (d s : String)
    (h : ((place_session cfg st day f code dur ty el).2).grid d s ≠ st.grid d s) :
    d = day ∧ st.grid day s = "" ∧ s ∉ cfg.excluded_slots ∧
    ∃ room rooms2 rng2, roomResolve cfg st code ty el = some (room, rooms2, rng2) ∧
      ((place_session cfg st day f code dur ty el).2).grid d s =
        occupantTag ty code room el := by
  rcases place_session_spec cfg st day f code dur ty el with h1 | ⟨group, room, rooms2, rng2, hff, hrr, heq⟩
  · rw [h1] at h
    exact absurd rfl h
  · rw [heq] at h ⊢
    simp only at h ⊢
    rw [foldl_writeTag_eval] at h ⊢
    by_cases hc : (ty = "L" ∨ ty = "T" ∨ ty = "P") ∧ d = day ∧ s ∈ slotsToFill dur 0 group
    · have hg : group ∈ find_free_blocks cfg st.grid day := firstFit_mem _ _ _ hff
      unfold find_free_blocks at hg
      have hs : s ∈ group := slotsToFill_subset _ _ _ _ hc.2.2
      have hfree := (groupRuns_mem _ cfg.slot_keys [] (by simp) group hg).2 s hs
      have hfree' : st.grid day s = "" ∧ s ∉ cfg.excluded_slots := by
        simpa [isFreeSlot] using hfree
      exact ⟨hc.2.1, hfree'.1, hfree'.2, room, rooms2, rng2, hrr, by rw [if_pos hc]⟩
    · rw [if_neg hc] at h
      exact absurd rfl h

lemma place_session_fac (cfg : Cfg) (st : St) (day f code : String) (dur : ℤ)
    (ty : String) (el : Bool) :
    ((place_session cfg st day f code dur ty el).2).fac = st.fac ∨
    (f ≠ "" ∧
      ((place_session cfg st day f code dur ty el).2).fac = pushFac st.fac day f) := by
  rcases place_session_spec cfg st day f code dur ty el with h1 | ⟨g, r, r2, n2, _, _, heq⟩
  · rw [h1]
    exact Or.inl rfl
  · rw [heq]
    by_cases hf : f = ""
    · exact Or.inl (by simp [hf])
    · exact Or.inr ⟨hf, by simp [hf]⟩

lemma place_session_rooms_spec (cfg : Cfg) (st : St) (day f code : String) (dur : ℤ)
    (ty : String) (el : Bool) :
    ((place_session cfg st day f code dur ty el).2).rooms = st.rooms ∨
    ∃ c0 r0, List.lookup c0 st.rooms = none ∧
      ((place_session cfg st day f code dur ty el).2).rooms = (c0, r0) :: st.rooms := by
  rcases place_session_spec cfg st day f code dur ty el with h1 | ⟨g, room, rooms2, rng2, hff, hrr, heq⟩
  · rw [h1]
    exact Or.inl rfl
  · rw [heq]
    simp only
    rcases roomResolve_char cfg st code ty el room rooms2 rng2 hrr with
      ⟨_, _, h2, _⟩ | ⟨_, _, h2, _⟩ | ⟨_, hlk, h2, _, _⟩
    · exact Or.inl h2
    · exact Or.inl h2
    · exact Or.inr ⟨code, room, hlk, h2⟩

/-! ### Unfolding equations for the scheduler loops -/

lemma dayPass_cons (cfg : Cfg) (f code ty : String) (el : Bool) (alloc : ℤ → ℤ)
    (rem : ℤ) (st : St) (day : String) (rest : List String) :
    dayPass cfg f code ty el alloc rem st (day :: rest) =
      if rem ≤ 0 ∨ (f ≠ "" ∧ f ∈ st.fac day) then
        dayPass cfg f code ty el alloc rem st rest
      else if (place_session cfg st day f code (alloc rem) ty el).1 then
        ((place_session cfg st day f code (alloc rem) ty el).2, rem - alloc rem)
      else
        dayPass cfg f code ty el alloc rem
          ((place_session cfg st day f code (alloc rem) ty el).2) rest := rfl

lemma course_sched_succ (cfg : Cfg) (alloc : ℤ → ℤ) (ty : String) (el : Bool)
    (f code : String) (n : ℕ) (rem : ℤ) (st : St) :
    course_sched cfg alloc ty el f code (n + 1) rem st =
      if 0 < rem then
        ((course_sched cfg alloc ty el f code n
            (dayPass cfg f code ty el alloc rem st week_days).2
            (dayPass cfg f code ty el alloc rem st week_days).1).1,
          (course_sched cfg alloc ty el f code n
            (dayPass cfg f code ty el alloc rem st week_days).2
            (dayPass cfg f code ty el alloc rem st week_days).1).2.1,
          (course_sched cfg alloc ty el f code n
            (dayPass cfg f code ty el alloc rem st week_days).2
            (dayPass cfg f code ty el alloc rem st week_days).1).2.2 + 1)
      else (st, rem, 0) := rfl

/-! ### Generic preservation of a state property through the run -/

lemma dayPass_preserve (cfg : Cfg) (P : St → Prop)
    (hplace : ∀ st day f code dur ty el, P st → P (place_session cfg st day f code dur ty el).2) :
    ∀ (days : List String) (f code ty : String) (el : Bool) (alloc : ℤ → ℤ)
      (rem : ℤ) (st : St),
      P st → P (dayPass cfg f code ty el alloc rem st days).1 := by
  intro days
  induction days with
  | nil => intro f code ty el alloc rem st h; exact h
  | cons day rest ih =>
    intro f code ty el alloc rem st h
    rw [dayPass_cons]
    by_cases hg : rem ≤ 0 ∨ (f ≠ "" ∧ f ∈ st.fac day)
    · rw [if_pos hg]
      exact ih _ _ _ _ _ _ _ h
    · rw [if_neg hg]
      by_cases hs : (place_session cfg st day f code (alloc rem) ty el).1 = true
      · rw [if_pos hs]
        exact hplace _ _ _ _ _ _ _ h
      · rw [if_neg hs]
        exact ih _ _ _ _ _ _ _ (hplace _ _ _ _ _ _ _ h)

lemma course_sched_preserve (cfg : Cfg) (P : St → Prop)
    (hday : ∀ f code ty el alloc rem st days,
      P st → P (dayPass cfg f code ty el alloc rem st days).1) :
    ∀ (fuel : ℕ) (alloc : ℤ → ℤ) (ty : String) (el : Bool) (f code : String)
      (rem : ℤ) (st : St),
      P st → P (course_sched cfg alloc ty el f code fuel rem st).1 := by
  intro fuel
  induction fuel with
  | zero => intro alloc ty el f code rem st h; exact h
  | succ n ih =>
    intro alloc ty el f code rem st h
    rw [course_sched_succ]
    by_cases hr : 0 < rem
    · rw [if_pos hr]
      exact ih _ _ _ _ _ _ _ (hday f code ty el alloc rem st week_days h)
    · rw [if_neg hr]
      exact h

lemma sched_course_preserve (cfg : Cfg) (P : St → Prop)
    (hday : ∀ f code ty el alloc rem st days,
      P st → P (dayPass cfg f code ty el alloc rem st days).1)
    (st : St) (course : Course) (h : P st) : P (sched_course cfg st course) := by
  unfold sched_course
  cases hp : parseLTPSC course.LTPSC with
  | none => exact h
  | some q =>
    obtain ⟨L, T, Pr, S, C⟩ := q
    exact course_sched_preserve cfg P hday _ _ _ _ _ _ _ _
      (course_sched_preserve cfg P hday _ _ _ _ _ _ _ _
        (course_sched_preserve cfg P hday _ _ _ _ _ _ _ _ h))

lemma fold_sched_preserve (cfg : Cfg) (P : St → Prop)
    (hday : ∀ f code ty el alloc rem st days,
      P st → P (dayPass cfg f code ty el alloc rem st days).1) :
    ∀ (courses : List Course) (st : St),
      P st → P (courses.foldl (sched_course cfg) st) := by
  intro courses
  induction courses with
  | nil => intro st h; exact h
  | cons c cs ih =>
    intro st h
    rw [List.foldl_cons]
    exact ih _ (sched_course_preserve cfg P hday st c h)

/-! ### The final clearing loop changes a cell only to the empty tag -/

lemma foldl_grid_or {α : Type} (step : Grid → α → Grid)
    (hstep : ∀ g a d s, step g a d s = g d s ∨ step g a d s = "") :
    ∀ (l : List α) (g : Grid) (d s : String),
      (l.foldl step g) d s = g d s ∨ (l.foldl step g) d s = "" := by
  intro l
  induction l with
  | nil => intro g d s; exact Or.inl rfl
  | cons a l ih =>
    intro g d s
    rcases ih (step g a) d s with h | h
    · rw [List.foldl_cons, h]
      exact hstep g a d s
    · rw [List.foldl_cons]
      exact Or.inr h

lemma clearExcluded_or (cfg : Cfg) (g : Grid) (d s : String) :
    clearExcluded cfg g d s = g d s ∨ clearExcluded cfg g d s = "" := by
  unfold clearExcluded
  refine foldl_grid_or _ ?_ week_days g d s
  intro g a d s
  refine foldl_grid_or _ ?_ cfg.excluded_slots g d s
  intro g b d s
  by_cases hb : b ∈ cfg.slot_keys
  · rw [if_pos hb, setCell_eval]
    by_cases hc : d = a ∧ s = b
    · rw [if_pos hc]
      exact Or.inr rfl
    · rw [if_neg hc]
      exact Or.inl rfl
  · rw [if_neg hb]
    exact Or.inl rfl

/-! ### Retry-budget lemmas -/

lemma dayPass_busy (cfg : Cfg) (f code ty : String) (el : Bool) (alloc : ℤ → ℤ)
    (hf : f ≠ "") :
    ∀ (days : List String) (rem : ℤ) (st : St), (∀ d ∈ days, f ∈ st.fac d) →
      dayPass cfg f code ty el alloc rem st days = (st, rem) := by
  intro days
  induction days with
  | nil => intro rem st _; rfl
  | cons day rest ih =>
    intro rem st hb
    rw [dayPass_cons, if_pos (Or.inr ⟨hf, hb day (by simp)⟩)]
    exact ih rem st (fun d hd => hb d (by simp [hd]))

lemma course_sched_busy (cfg : Cfg) (alloc : ℤ → ℤ) (ty : String) (el : Bool)
    (f code : String) (st : St) (hf : f ≠ "") (hb : ∀ d ∈ week_days, f ∈ st.fac d) :
    ∀ (n : ℕ) (rem : ℤ), 0 < rem →
      course_sched cfg alloc ty el f code n rem st = (st, rem, n) := by
  intro n
  induction n with
  | zero => intro rem _; rfl
  | succ n ih =>
    intro rem h
    rw [course_sched_succ, if_pos h, dayPass_busy cfg f code ty el alloc hf week_days rem st hb,
      ih rem h]

lemma course_sched_count (cfg : Cfg) (alloc : ℤ → ℤ) (ty : String) (el : Bool)
    (f code : String) :
    ∀ (n : ℕ) (rem : ℤ) (st : St), (course_sched cfg alloc ty el f code n rem st).2.2 ≤ n := by
  intro n
  induction n with
  | zero => intro rem st; exact Nat.le_refl 0
  | succ n ih =>
    intro rem st
    rw [course_sched_succ]
    by_cases hr : 0 < rem
    · rw [if_pos hr]
      exact Nat.succ_le_succ (ih _ _)
    · rw [if_neg hr]
      exact Nat.zero_le _

/-! ### Projections of the final state -/

lemma create_timetable_grid (cfg : Cfg) (courses : List Course) (rng : List ℕ) :
    (create_timetable cfg courses rng).grid =
      clearExcluded cfg
        ((pick_courses courses rng).1.foldl (sched_course cfg)
          (init_state (pick_courses courses rng).2)).grid := rfl

lemma create_timetable_fac (cfg : Cfg) (courses : List Course) (rng : List ℕ) :
    (create_timetable cfg courses rng).fac =
      ((pick_courses courses rng).1.foldl (sched_course cfg)
        (init_state (pick_courses courses rng).2)).fac := rfl

/-! ### Faculty lists stay duplicate-free -/

lemma dayPass_nodup (cfg : Cfg) :
    ∀ (f code ty : String) (el : Bool) (alloc : ℤ → ℤ) (rem : ℤ) (st : St)
      (days : List String),
      (∀ d, (st.fac d).Nodup) →
      ∀ d, (((dayPass cfg f code ty el alloc rem st days).1).fac d).Nodup := by
  intro f code ty el alloc rem st days
  induction days generalizing rem st with
  | nil => intro h d; exact h d
  | cons day rest ih =>
    intro h d
    rw [dayPass_cons]
    by_cases hg : rem ≤ 0 ∨ (f ≠ "" ∧ f ∈ st.fac day)
    · rw [if_pos hg]
      exact ih rem st h d
    · rw [if_neg hg]
      by_cases hs : (place_session cfg st day f code (alloc rem) ty el).1 = true
      · rw [if_pos hs]
        show (((place_session cfg st day f code (alloc rem) ty el).2).fac d).Nodup
        rcases place_session_fac cfg st day f code (alloc rem) ty el with hfa | ⟨hf, hfa⟩
        · rw [hfa]
          exact h d
        · rw [hfa, pushFac_eval]
          by_cases hd : d = day
          · rw [if_pos hd]
            subst hd
            have hnot : f ∉ st.fac d := fun hm => hg (Or.inr ⟨hf, hm⟩)
            refine (h d).append (List.nodup_singleton f) ?_
            intro a ha hb
            simp only [List.mem_singleton] at hb
            subst hb
            exact hnot ha
          · rw [if_neg hd]
            exact h d
      · rw [if_neg hs]
        rw [Bool.not_eq_true] at hs
        rw [place_session_fail cfg st day f code (alloc rem) ty el hs]
        exact ih rem st h d

lemma run_fac_nodup (cfg : Cfg) (courses : List Course) (rng : List ℕ) :
    ∀ d, ((create_timetable cfg courses rng).fac d).Nodup := by
  rw [create_timetable_fac]
  refine fold_sched_preserve cfg (fun st => ∀ d, (st.fac d).Nodup)
    (fun f code ty el alloc rem st days h => dayPass_nodup cfg f code ty el alloc rem st days h)
    _ _ ?_
  intro d
  exact List.nodup_nil

/-! ### Excluded slots stay empty through a whole run -/

lemma place_excl_preserve (cfg : Cfg) :
    ∀ (st : St) (day f code : String) (dur : ℤ) (ty : String) (el : Bool),
      (∀ d s, s ∈ cfg.excluded_slots → st.grid d s = "") →
      (∀ d s, s ∈ cfg.excluded_slots →
        ((place_session cfg st day f code dur ty el).2).grid d s = "") := by
  intro st day f code dur ty el h d s hs
  by_cases hch : ((place_session cfg st day f code dur ty el).2).grid d s = st.grid d s
  · rw [hch]
    exact h d s hs
  · exact absurd hs (place_session_grid_changed cfg st day f code dur ty el d s hch).2.2.1

lemma create_excl_empty (cfg : Cfg) (courses : List Course) (rng : List ℕ)
    (d s : String) (hs : s ∈ cfg.excluded_slots) :
    (create_timetable cfg courses rng).grid d s = "" := by
  have hfold : ∀ d s, s ∈ cfg.excluded_slots →
      ((pick_courses courses rng).1.foldl (sched_course cfg)
        (init_state (pick_courses courses rng).2)).grid d s = "" := by
    refine fold_sched_preserve cfg
      (fun st => ∀ d s, s ∈ cfg.excluded_slots → st.grid d s = "")
      (fun f code ty el alloc rem st days h =>
        dayPass_preserve cfg _
          (fun st day f code dur ty el h => place_excl_preserve cfg st day f code dur ty el h)
          days f code ty el alloc rem st h)
      _ _ ?_
    intro d s _
    rfl
  rw [create_timetable_grid]
  rcases clearExcluded_or cfg _ d s with h | h
  · rw [h]
    exact hfold d s hs
  · exact h

/-! ### Room bindings persist -/

lemma place_rooms_mono (cfg : Cfg) (code : String) (r : String) :
    ∀ (st : St) (day f c0 : String) (dur : ℤ) (ty : String) (el : Bool),
      List.lookup code st.rooms = some r →
      List.lookup code ((place_session cfg st day f c0 dur ty el).2).rooms = some r := by
  intro st day f c0 dur ty el h
  rcases place_session_rooms_spec cfg st day f c0 dur ty el with heq | ⟨c1, r1, hlk, heq⟩
  · rw [heq]
    exact h
  · rw [heq]
    have hne : ¬(code = c1) := by
      intro he
      rw [← he] at hlk
      rw [h] at hlk
      cases hlk
    have hbeq : (code == c1) = false := beq_eq_false_iff_ne.mpr hne
    simp [List.lookup, hbeq, h]

lemma run_rooms_mono (cfg : Cfg) (code : String) (r : String) :
    ∀ (courses : List Course) (st : St),
      List.lookup code st.rooms = some r →
      List.lookup code ((courses.foldl (sched_course cfg) st).rooms) = some r := by
  intro courses st h
  refine fold_sched_preserve cfg (fun st => List.lookup code st.rooms = some r)
    (fun f c0 ty el alloc rem st days h =>
      dayPass_preserve cfg _
        (fun st day f c0 dur ty el h => place_rooms_mono cfg code r st day f c0 dur ty el h)
        days f c0 ty el alloc rem st h)
    _ _ h

/-! ### Maximal-run decomposition of the scanner output -/

lemma innerDecomp_cons_busy {free : String → Bool} {x : String} (hf : free x = false) :
    ∀ {l : List String} {gs : List (List String)},
      InnerDecomp free l gs → InnerDecomp free (x :: l) gs := by
  intro l gs h
  cases gs with
  | nil =>
    intro s hs
    rcases List.mem_cons.mp hs with h1 | h2
    · subst h1
      exact hf
    · exact h s h2
  | cons g gs =>
    obtain ⟨pre, rest, heq, hpre, hbusy, hrest⟩ := h
    refine ⟨x :: pre, rest, by rw [heq]; rfl, by simp, ?_, hrest⟩
    intro s hs
    rcases List.mem_cons.mp hs with h1 | h2
    · subst h1
      exact hf
    · exact hbusy s h2

lemma sepDecomp_cons_busy {free : String → Bool} {x : String} (hf : free x = false) :
    ∀ {l : List String} {gs : List (List String)},
      SepDecomp free l gs → SepDecomp free (x :: l) gs := by
  intro l gs h
  cases gs with
  | nil =>
    intro s hs
    rcases List.mem_cons.mp hs with h1 | h2
    · subst h1
      exact hf
    · exact h s h2
  | cons g gs =>
    obtain ⟨pre, rest, heq, hbusy, hrest⟩ := h
    refine ⟨x :: pre, rest, by rw [heq]; rfl, ?_, hrest⟩
    intro s hs
    rcases List.mem_cons.mp hs with h1 | h2
    · subst h1
      exact hf
    · exact hbusy s h2

lemma groupRuns_extend (free : String → Bool) :
    ∀ (l temp : List String), temp ≠ [] →
      ∃ ext rest, l = ext ++ rest ∧ (∀ s ∈ ext, free s = true) ∧
        groupRuns free l temp = (temp ++ ext) :: groupRuns free rest [] ∧
        (rest = [] ∨ ∃ b rest2, rest = b :: rest2 ∧ free b = false) := by
  intro l
  induction l with
  | nil =>
    intro temp ht
    refine ⟨[], [], by simp, by simp, ?_, Or.inl rfl⟩
    rw [groupRuns, if_neg ht]
    simp [groupRuns]
  | cons x xs ih =>
    intro temp ht
    by_cases hf : free x = true
    · obtain ⟨ext, rest, hr, hfree, heq, hside⟩ := ih (temp ++ [x]) (by simp)
      refine ⟨x :: ext, rest, by rw [List.cons_append, ← hr], ?_, ?_, hside⟩
      · intro s hs
        rcases List.mem_cons.mp hs with h1 | h2
        · subst h1
          exact hf
        · exact hfree s h2
      · rw [groupRuns, if_pos hf, heq]
        simp
    · have hf' : free x = false := by
        cases hfx : free x
        · rfl
        · exact absurd hfx hf
      refine ⟨[], x :: xs, by simp, by simp, ?_, Or.inr ⟨x, xs, rfl, hf'⟩⟩
      have hstep : groupRuns free (x :: xs) [] = groupRuns free xs [] := by
        rw [groupRuns, if_neg hf, if_pos rfl]
      rw [groupRuns, if_neg hf, if_neg ht, hstep]
      simp

lemma groupRuns_inner (free : String → Bool) :
    ∀ (n : ℕ) (l : List String), l.length ≤ n → ∀ (b : String), free b = false →
      InnerDecomp free (b :: l) (groupRuns free l []) := by
  intro n
  induction n with
  | zero =>
    intro l hl b hb
    have h0 : l = [] := List.eq_nil_of_length_eq_zero (Nat.le_zero.mp hl)
    subst h0
    show InnerDecomp free [b] []
    intro s hs
    simp only [List.mem_singleton] at hs
    subst hs
    exact hb
  | succ n ih =>
    intro l hl b hb
    cases l with
    | nil =>
      show InnerDecomp free [b] []
      intro s hs
      simp only [List.mem_singleton] at hs
      subst hs
      exact hb
    | cons c r =>
      by_cases hc : free c = true
      · obtain ⟨ext, rest, hr, hfree, heq, hside⟩ := groupRuns_extend free r [c] (by simp)
        have hgr : groupRuns free (c :: r) [] = ([c] ++ ext) :: groupRuns free rest [] := by
          rw [groupRuns, if_pos hc]
          simpa using heq
        rw [hgr]
        refine ⟨[b], rest, by rw [hr]; rfl, by simp, ?_, ?_⟩
        · intro s hs
          simp only [List.mem_singleton] at hs
          subst hs
          exact hb
        · rcases hside with h0 | ⟨b2, rest2, hrst, hb2⟩
          · subst h0
            show InnerDecomp free [] ([] : List (List String))
            intro s hs
            cases hs
          · subst hrst
            have hstep : groupRuns free (b2 :: rest2) [] = groupRuns free rest2 [] := by
              rw [groupRuns, if_neg (by rw [hb2]; exact Bool.false_ne_true), if_pos rfl]
            rw [hstep]
            have hlen : rest2.length ≤ n := by
              have h1 : (c :: r).length ≤ n + 1 := hl
              rw [hr] at h1
              simp [List.length_append] at h1
              omega
            exact ih rest2 hlen b2 hb2
      · have hc' : free c = false := by
          cases hfx : free c
          · rfl
          · exact absurd hfx hc
        have hstep : groupRuns free (c :: r) [] = groupRuns free r [] := by
          rw [groupRuns, if_neg hc, if_pos rfl]
        rw [hstep]
        have hlen : r.length ≤ n := by
          simp only [List.length_cons] at hl
          omega
        exact innerDecomp_cons_busy hb (ih r hlen c hc')

lemma groupRuns_sep (free : String → Bool) :
    ∀ (n : ℕ) (l : List String), l.length ≤ n → SepDecomp free l (groupRuns free l []) := by
  intro n
  induction n with
  | zero =>
    intro l hl
    have h0 : l = [] := List.eq_nil_of_length_eq_zero (Nat.le_zero.mp hl)
    subst h0
    show SepDecomp free [] ([] : List (List String))
    intro s hs
    cases hs
  | succ n ih =>
    intro l hl
    cases l with
    | nil =>
      show SepDecomp free [] ([] : List (List String))
      intro s hs
      cases hs
    | cons c r =>
      by_cases hc : free c = true
      · obtain ⟨ext, rest, hr, hfree, heq, hside⟩ := groupRuns_extend free r [c] (by simp)
        have hgr : groupRuns free (c :: r) [] = ([c] ++ ext) :: groupRuns free rest [] := by
          rw [groupRuns, if_pos hc]
          simpa using heq
        rw [hgr]
        refine ⟨[], rest, by rw [hr]; rfl, by simp, ?_⟩
        rcases hside with h0 | ⟨b2, rest2, hrst, hb2⟩
        · subst h0
          show InnerDecomp free [] ([] : List (List String))
          intro s hs
          cases hs
        · subst hrst
          have hstep : groupRuns free (b2 :: rest2) [] = groupRuns free rest2 [] := by
            rw [groupRuns, if_neg (by rw [hb2]; exact Bool.false_ne_true), if_pos rfl]
          rw [hstep]
          have hlen : rest2.length ≤ n := by
            have h1 : (c :: r).length ≤ n + 1 := hl
            rw [hr] at h1
            simp [List.length_append] at h1
            omega
          exact groupRuns_inner free n rest2 hlen b2 hb2
      · have hc' : free c = false := by
          cases hfx : free c
          · rfl
          · exact absurd hfx hc
        have hstep : groupRuns free (c :: r) [] = groupRuns free r [] := by
          rw [groupRuns, if_neg hc, if_pos rfl]
        rw [hstep]
        have hlen : r.length ≤ n := by
          simp only [List.length_cons] at hl
          omega
        exact sepDecomp_cons_busy hc' (ih r hlen)

/-! ### Slot-label parsing -/

lemma calc_slot_duration_parses (slot : String) (h1 m1 h2 m2 : ℕ)
    (hp : SlotParses slot h1 m1 h2 m2) :
    calc_slot_duration slot =
      some (((60 * h2 + m2 : ℕ) : ℤ) - ((60 * h1 + m1 : ℕ) : ℤ)) := by
  obtain ⟨sta, en, hs, ms, he, me, e1, e2, e3, e4, e5, e6, e7⟩ := hp
  unfold calc_slot_duration
  simp only [e1, e2, e3, e4, e5, e6, e7]

/-! ## The claims -/

/-- C4: for every occupancy row, the free-block finder returns exactly the
maximal runs of catalog-consecutive slots that are both empty and not
excluded, in catalog order: every group is non-empty and all-free, each
group is contiguous in the catalog, the groups cover exactly the free
slots in catalog order, the maximal-run decomposition holds (an occupied
or excluded slot always separates groups, the trailing run is included),
and the result depends only on the row's values on the catalog (it is a
pure function, so it mutates nothing). -/
theorem free_blocks_correct (cfg : Cfg) (g : Grid) (day : String) :
    (∀ gr ∈ find_free_blocks cfg g day,
      gr ≠ [] ∧ ∀ s ∈ gr, g day s = "" ∧ s ∉ cfg.excluded_slots) ∧
    (find_free_blocks cfg g day).flatten =
      cfg.slot_keys.filter (isFreeSlot cfg g day) ∧
    (∀ gr ∈ find_free_blocks cfg g day,
      ∃ pre post, cfg.slot_keys = pre ++ (gr ++ post)) ∧
    SepDecomp (isFreeSlot cfg g day) cfg.slot_keys (find_free_blocks cfg g day) ∧
    (∀ g2 : Grid, (∀ s ∈ cfg.slot_keys, g day s = g2 day s) →
      find_free_blocks cfg g2 day = find_free_blocks cfg g day) := by
  refine ⟨?_, ?_, ?_, ?_, ?_⟩
  · intro gr hgr
    have h := groupRuns_mem (isFreeSlot cfg g day) cfg.slot_keys [] (by simp) gr hgr
    refine ⟨h.1, ?_⟩
    intro s hs
    have h2 := h.2 s hs
    simpa [isFreeSlot] using h2
  · simpa using groupRuns_join (isFreeSlot cfg g day) cfg.slot_keys []
  · intro gr hgr
    simpa using groupRuns_contiguous (isFreeSlot cfg g day) cfg.slot_keys [] gr hgr
  · exact groupRuns_sep _ cfg.slot_keys.length cfg.slot_keys (Nat.le_refl _)
  · intro g2 hag
    unfold find_free_blocks
    refine groupRuns_congr _ _ cfg.slot_keys [] ?_
    intro s hs
    simp [isFreeSlot, hag s hs]

/-- Witness for the free-block finder theorem at a concrete row: with the
middle slot excluded and an empty grid, the first returned group is the
single slot before the exclusion. -/
theorem free_blocks_correct_wit :
    (["08:00-09:00"] ∈ find_free_blocks cfgC4 emptyGrid "Monday") ∧
    (["08:00-09:00"] ≠ [] ∧ ∀ s ∈ ["08:00-09:00"],
      emptyGrid "Monday" s = "" ∧ s ∉ cfgC4.excluded_slots) :=
  ⟨by decide,
    (free_blocks_correct cfgC4 emptyGrid "Monday").1 ["08:00-09:00"] (by decide)⟩

/-- C3: a non-empty cell is never overwritten by a placement, no placement
writes into an excluded slot, and in the final emitted grid every excluded
slot is empty on every day. -/
theorem no_overwrite_no_excluded :
    (∀ (cfg : Cfg) (st : St) (day f code : String) (dur : ℤ) (ty : String)
      (el : Bool) (d s : String),
      (st.grid d s ≠ "" →
        ((place_session cfg st day f code dur ty el).2).grid d s = st.grid d s) ∧
      (s ∈ cfg.excluded_slots →
        ((place_session cfg st day f code dur ty el).2).grid d s = st.grid d s)) ∧
    (∀ (cfg : Cfg) (courses : List Course) (rng : List ℕ) (d s : String),
      s ∈ cfg.excluded_slots → (create_timetable cfg courses rng).grid d s = "") := by
  constructor
  · intro cfg st day f code dur ty el d s
    constructor
    · intro hne
      by_contra hch
      have h := place_session_grid_changed cfg st day f code dur ty el d s hch
      rw [h.1] at hne
      exact hne h.2.1
    · intro hexc
      by_contra hch
      exact (place_session_grid_changed cfg st day f code dur ty el d s hch).2.2.1 hexc
  · exact fun cfg courses rng d s hs => create_excl_empty cfg courses rng d s hs

/-- Witness for the overwrite/exclusion theorem: a fully occupied cell is
left untouched by a placement attempt, and the excluded slot of a full run
ends empty. -/
theorem no_overwrite_no_excluded_wit :
    (stW.grid "Monday" "08:00-09:00" ≠ "" ∧
      ((place_session cfgW stW "Monday" "F" "C" 60 "L" false).2).grid
          "Monday" "08:00-09:00" =
        stW.grid "Monday" "08:00-09:00") ∧
    ("13:15-14:00" ∈ cfgW.excluded_slots ∧
      (create_timetable cfgW [] []).grid "Monday" "13:15-14:00" = "") :=
  ⟨⟨by decide,
      (no_overwrite_no_excluded.1 cfgW stW "Monday" "F" "C" 60 "L" false
        "Monday" "08:00-09:00").1 (by decide)⟩,
    ⟨by decide,
      no_overwrite_no_excluded.2 cfgW [] [] "Monday" "13:15-14:00" (by decide)⟩⟩

/-- C5: whenever `place_session` returns failure, the state (grid, faculty
sets, room table and random stream alike) is exactly as before the call:
placement is all-or-nothing per call. -/
theorem failed_placement_id (cfg : Cfg) (st : St) (day f code : String) (dur : ℤ)
    (ty : String) (el : Bool)
    (h : (place_session cfg st day f code dur ty el).1 = false) :
    (place_session cfg st day f code dur ty el).2 = st :=
  place_session_fail cfg st day f code dur ty el h

/-- Witness for the failure theorem: on a fully occupied day the placement
fails and the state is returned unchanged. -/
theorem failed_placement_id_wit :
    (place_session cfgW stW "Monday" "F" "C" 60 "L" false).1 = false ∧
    (place_session cfgW stW "Monday" "F" "C" 60 "L" false).2 = stW :=
  ⟨by decide, failed_placement_id cfgW stW "Monday" "F" "C" 60 "L" false (by decide)⟩

/-- C7: within one builder run every per-day faculty list is duplicate
free, so a non-empty faculty name has at most one session on any day. -/
theorem faculty_once_per_day (cfg : Cfg) (courses : List Course) (rng : List ℕ)
    (day f : String) (_hf : f ≠ "") :
    ((create_timetable cfg courses rng).fac day).count f ≤ 1 :=
  List.nodup_iff_count_le_one.mp (run_fac_nodup cfg courses rng day) f

/-- Witness for the faculty theorem on the concrete scenario run. -/
theorem faculty_once_per_day_wit :
    ("X" ≠ "") ∧ (((create_timetable cfgC2 [courseC2] []).fac "Monday").count "X" ≤ 1) :=
  ⟨by decide, faculty_once_per_day cfgC2 [courseC2] [] "Monday" "X" (by decide)⟩

/-- C8: the per-course, per-session-type loop spends at most its fuel in
passes (the builder always invokes it with `MAX_ATTEMPTS = 10`), and a
course whose faculty is already on every day's list ends with the state
untouched, all hours still remaining, and exactly `MAX_ATTEMPTS` exhausted
passes; the embedding is a total function, so no error is raised. -/
theorem retry_budget :
    (∀ (cfg : Cfg) (alloc : ℤ → ℤ) (ty : String) (el : Bool) (f code : String)
      (fuel : ℕ) (rem : ℤ) (st : St),
      (course_sched cfg alloc ty el f code fuel rem st).2.2 ≤ fuel) ∧
    (∀ (cfg : Cfg) (alloc : ℤ → ℤ) (ty : String) (el : Bool) (f code : String)
      (st : St) (R : ℤ),
      f ≠ "" → (∀ d ∈ week_days, f ∈ st.fac d) → 0 < R →
      course_sched cfg alloc ty el f code MAX_ATTEMPTS R st = (st, R, MAX_ATTEMPTS)) := by
  constructor
  · intro cfg alloc ty el f code fuel rem st
    exact course_sched_count cfg alloc ty el f code fuel rem st
  · intro cfg alloc ty el f code st R hf hb hR
    exact course_sched_busy cfg alloc ty el f code st hf hb MAX_ATTEMPTS R hR

/-- Witness for the retry-budget theorem: with faculty `"F"` pre-marked
busy on all five days and two hours requested, ten passes are spent and
nothing is placed. -/
theorem retry_budget_wit :
    ("F" ≠ "" ∧ (∀ d ∈ week_days, "F" ∈ stBusy.fac d) ∧ (0 : ℤ) < 120) ∧
    course_sched cfgC2 lectureAlloc "L" false "F" "C" MAX_ATTEMPTS 120 stBusy =
      (stBusy, 120, MAX_ATTEMPTS) :=
  ⟨⟨by decide, by decide, by decide⟩,
    retry_budget.2 cfgC2 lectureAlloc "L" false "F" "C" stBusy 120 (by decide)
      (by decide) (by decide)⟩

/-- C10: an elective placement skips room resolution entirely: the room
table and the random stream are untouched (so no draw is consumed and no
binding is made, and an empty pool can cause no failure), and the call
succeeds exactly when some free block is long enough. -/
theorem elective_skips_room_resolution (cfg : Cfg) (st : St) (day f code : String)
    (dur : ℤ) (ty : String) :
    ((place_session cfg st day f code dur ty true).2).rooms = st.rooms ∧
    ((place_session cfg st day f code dur ty true).2).rng = st.rng ∧
    (place_session cfg st day f code dur ty true).1 =
      (firstFit dur (find_free_blocks cfg st.grid day)).isSome := by
  unfold place_session
  cases hff : firstFit dur (find_free_blocks cfg st.grid day) with
  | none => exact ⟨rfl, rfl, rfl⟩
  | some group =>
    rw [roomResolve_elective]
    exact ⟨rfl, rfl, rfl⟩

/-- C1 fails on the code: in a concrete full run (one lecture hour then
one practical hour, disjoint one-room pools), the practical session of
`"CS"` is tagged with room `"C1"`, which is the classroom bound by the
earlier lecture and is not in the lab pool. -/
theorem room_pool_mismatch_cex :
    (create_timetable cfgC1 [courseC1] []).grid "Tuesday" "08:00-09:00" = "CS (Lab-C1)" ∧
    occupantTag "P" "CS" "C1" false = "CS (Lab-C1)" ∧
    "C1" ∉ cfgC1.labs ∧ "C1" ∈ cfgC1.classrooms :=
  ⟨by decide, by decide, by decide, by decide⟩

/-- C1 amended: the pool matches the session type only for the placement
that creates the binding.  When a non-elective course has no bound room
yet and the placement succeeds, the room bound by the call is drawn from
the lab pool for a `"P"` session and from the classroom pool otherwise,
and every cell the call writes carries the tag embedding that room;
subsequent placements reuse the bound room regardless of session type. -/
theorem room_pool_on_first_binding (cfg : Cfg) (st : St) (day f code : String)
    (dur : ℤ) (ty : String)
    (hun : List.lookup code st.rooms = none)
    (hok : (place_session cfg st day f code dur ty false).1 = true) :
    ∃ r, List.lookup code ((place_session cfg st day f code dur ty false).2).rooms =
        some r ∧
      (ty = "P" → r ∈ cfg.labs) ∧ (¬ ty = "P" → r ∈ cfg.classrooms) ∧
      ∀ d s, ((place_session cfg st day f code dur ty false).2).grid d s ≠ st.grid d s →
        ((place_session cfg st day f code dur ty false).2).grid d s =
          occupantTag ty code r false := by
  rcases place_session_spec cfg st day f code dur ty false with
    h1 | ⟨group, room, rooms2, rng2, hff, hrr, heq⟩
  · rw [h1] at hok
    exact absurd hok (by simp)
  · rcases roomResolve_char cfg st code ty false room rooms2 rng2 hrr with
      ⟨hel, _⟩ | ⟨_, hlk, _⟩ | ⟨_, _, hr2, _, hpool⟩
    · cases hel
    · rw [hun] at hlk
      cases hlk
    · refine ⟨room, ?_, ?_, ?_, ?_⟩
      · rw [heq]
        simp only
        rw [hr2]
        simp [List.lookup]
      · intro hty
        rcases hpool with ⟨_, hm⟩ | ⟨hne, _⟩
        · exact hm
        · exact absurd hty hne
      · intro hty
        rcases hpool with ⟨hP, _⟩ | ⟨_, hm⟩
        · exact absurd hP hty
        · exact hm
      · intro d s hch
        obtain ⟨_, _, _, room', rooms2', rng2', hrr', hval⟩ :=
          place_session_grid_changed cfg st day f code dur ty false d s hch
        rw [hrr] at hrr'
        simp only [Option.some.injEq, Prod.mk.injEq] at hrr'
        rw [hval, ← hrr'.1]

/-- Witness for the first-binding pool theorem: a first practical
placement with an empty binding table draws its room, and the drawn room
is in the lab pool. -/
theorem room_pool_on_first_binding_wit :
    (List.lookup "CS" (init_state []).rooms = none ∧
      (place_session cfgC1 (init_state []) "Monday" "F" "CS" 60 "P" false).1 = true) ∧
    ∃ r, List.lookup "CS"
        ((place_session cfgC1 (init_state []) "Monday" "F" "CS" 60 "P" false).2).rooms =
          some r ∧
      ("P" = "P" → r ∈ cfgC1.labs) ∧ (¬ "P" = "P" → r ∈ cfgC1.classrooms) ∧
      ∀ d s, ((place_session cfgC1 (init_state []) "Monday" "F" "CS" 60 "P" false).2).grid
            d s ≠ (init_state []).grid d s →
        ((place_session cfgC1 (init_state []) "Monday" "F" "CS" 60 "P" false).2).grid
            d s = occupantTag "P" "CS" r false :=
  ⟨⟨by decide, by decide⟩,
    room_pool_on_first_binding cfgC1 (init_state []) "Monday" "F" "CS" 60 "P"
      (by decide) (by decide)⟩

/-- C2 fails on the code: in the end-to-end scenario (slots 08-09, 09-10,
10-11, course `2-0-0-0-2`, faculty `"X"`, classrooms `["R1"]`), one pass
places `min(1.5, 2) = 1.5` hours, so the remaining lecture duration after
one pass is 30 minutes (0.5 hours), not 0, and the full run also tags a
third slot on the second day. -/
theorem scenario_one_pass_cex :
    (course_sched cfgC2 lectureAlloc "L" false "X" "CODE" 1 120 (init_state [])).2.1 = 30 ∧
    ¬((course_sched cfgC2 lectureAlloc "L" false "X" "CODE" 1 120 (init_state [])).2.1 = 0) ∧
    (create_timetable cfgC2 [courseC2] []).grid "Tuesday" "08:00-09:00" = "CODE (R1)" :=
  ⟨by decide, by decide, by decide⟩

/-- C2 amended: the first pass places two consecutive one-hour slots on
Monday tagged `"CODE (R1)"`, leaving 0.5 hours; a second pass places the
final half hour into one more slot on Tuesday with the same tag; remaining
reaches 0 after exactly two passes. -/
theorem scenario_two_pass :
    (course_sched cfgC2 lectureAlloc "L" false "X" "CODE" MAX_ATTEMPTS 120
        (init_state [])).2.1 = 0 ∧
    (course_sched cfgC2 lectureAlloc "L" false "X" "CODE" MAX_ATTEMPTS 120
        (init_state [])).2.2 = 2 ∧
    (create_timetable cfgC2 [courseC2] []).grid "Monday" "08:00-09:00" = "CODE (R1)" ∧
    (create_timetable cfgC2 [courseC2] []).grid "Monday" "09:00-10:00" = "CODE (R1)" ∧
    (create_timetable cfgC2 [courseC2] []).grid "Monday" "10:00-11:00" = "" ∧
    (create_timetable cfgC2 [courseC2] []).grid "Tuesday" "08:00-09:00" = "CODE (R1)" ∧
    (create_timetable cfgC2 [courseC2] []).grid "Tuesday" "09:00-10:00" = "" :=
  ⟨by decide, by decide, by decide, by decide, by decide, by decide, by decide⟩

/-- C6: the builder starts every invocation from an empty binding table; a
binding, once made, survives any later placement and any later course's
scheduling with the same room; and a placement for a course with a bound
room writes only tags embedding that room. -/
theorem room_binding_stable :
    (∀ rng : List ℕ, (init_state rng).rooms = []) ∧
    (∀ (cfg : Cfg) (st : St) (day f c0 : String) (dur : ℤ) (ty : String) (el : Bool)
      (code r : String),
      List.lookup code st.rooms = some r →
      List.lookup code ((place_session cfg st day f c0 dur ty el).2).rooms = some r) ∧
    (∀ (cfg : Cfg) (courses : List Course) (st : St) (code r : String),
      List.lookup code st.rooms = some r →
      List.lookup code ((courses.foldl (sched_course cfg) st).rooms) = some r) ∧
    (∀ (cfg : Cfg) (st : St) (day f code : String) (dur : ℤ) (ty : String) (r : String),
      List.lookup code st.rooms = some r →
      ∀ d s, ((place_session cfg st day f code dur ty false).2).grid d s ≠ st.grid d s →
        ((place_session cfg st day f code dur ty false).2).grid d s =
          occupantTag ty code r false) := by
  refine ⟨fun _ => rfl, ?_, ?_, ?_⟩
  · intro cfg st day f c0 dur ty el code r h
    exact place_rooms_mono cfg code r st day f c0 dur ty el h
  · intro cfg courses st code r h
    exact run_rooms_mono cfg code r courses st h
  · intro cfg st day f code dur ty r hlk d s hch
    obtain ⟨hd, hempty, hexc, room, rooms2, rng2, hrr, hval⟩ :=
      place_session_grid_changed cfg st day f code dur ty false d s hch
    have hb := roomResolve_bound cfg st code ty r hlk
    rw [hb] at hrr
    simp only [Option.some.injEq, Prod.mk.injEq] at hrr
    rw [hval, ← hrr.1]

/-- Witness for the binding-stability theorem: with `"C"` bound to
`"R9"`, a lecture placement writes the tag embedding `"R9"`. -/
theorem room_binding_stable_wit :
    (List.lookup "C" stB.rooms = some "R9") ∧
    ((place_session cfgB stB "Monday" "F" "C" 60 "L" false).2).grid
        "Monday" "08:00-09:00" ≠ stB.grid "Monday" "08:00-09:00" ∧
    ((place_session cfgB stB "Monday" "F" "C" 60 "L" false).2).grid
        "Monday" "08:00-09:00" = occupantTag "L" "C" "R9" false :=
  ⟨by decide, by decide,
    room_binding_stable.2.2.2 cfgB stB "Monday" "F" "C" 60 "L" "R9" (by decide)
      "Monday" "08:00-09:00" (by decide)⟩

/-- C9: a slot label of the form `"HH:MM-HH:MM"` gets the duration
`(end_hour + end_minute/60) - (start_hour + start_minute/60)` hours (the
embedding stores it in minutes; dividing by 60 recovers the hour value),
and the duration is strictly positive whenever the end time is later than
the start time, which the spec's slot model requires of every catalog
slot. -/
theorem slot_duration_formula (slot : String) (h1 m1 h2 m2 : ℕ)
    (hp : SlotParses slot h1 m1 h2 m2) :
    ∃ d : ℤ, calc_slot_duration slot = some d ∧
      (d : ℚ) / 60 = (((h2 : ℚ) + (m2 : ℚ) / 60) - (((h1 : ℚ) + (m1 : ℚ) / 60))) ∧
      (60 * h1 + m1 < 60 * h2 + m2 → 0 < d) := by
  refine ⟨((60 * h2 + m2 : ℕ) : ℤ) - ((60 * h1 + m1 : ℕ) : ℤ),
    calc_slot_duration_parses slot h1 m1 h2 m2 hp, ?_, ?_⟩
  · push_cast
    ring
  · intro hlt
    have hz : ((60 * h1 + m1 : ℕ) : ℤ) < ((60 * h2 + m2 : ℕ) : ℤ) := by
      exact_mod_cast hlt
    omega

/-- Witness for the duration theorem at `"09:00-10:30"`: the parsed
duration is 90 minutes, i.e. 1.5 hours, and it is positive. -/
theorem slot_duration_formula_wit :
    SlotParses "09:00-10:30" 9 0 10 30 ∧
    ∃ d : ℤ, calc_slot_duration "09:00-10:30" = some d ∧
      (d : ℚ) / 60 = ((((10 : ℕ) : ℚ) + ((30 : ℕ) : ℚ) / 60) -
        ((((9 : ℕ) : ℚ) + (((0 : ℕ) : ℚ)) / 60))) ∧
      (60 * 9 + 0 < 60 * 10 + 30 → 0 < d) := by
  have hp : SlotParses "09:00-10:30" 9 0 10 30 :=
    ⟨['0', '9', ':', '0', '0'], ['1', '0', ':', '3', '0'], ['0', '9'], ['0', '0'],
      ['1', '0'], ['3', '0'],
      by decide, by decide, by decide, by decide, by decide, by decide, by decide⟩
  exact ⟨hp, slot_duration_formula "09:00-10:30" 9 0 10 30 hp⟩
